import Mathlib

/-!
Verification development for the situation-monitor news ingestion pipeline
(TypeScript sources under `src/`).  The TypeScript functions are shallowly
embedded as executable Lean definitions: strings are Lean `String`s
(processed as `List Char`, i.e. Unicode code points; all inputs exercised
here are BMP text, where JS UTF-16 code units coincide with code points),
JS numbers appearing in integer positions are `Int`/`Nat` with explicit
32-bit wrap-around where the source relies on it, and host facilities
(`new Date(...)`, `Date.now()`, `new URL(...)`) are passed in as explicit
parameters or modelled, as documented at each definition.
-/

/-! ## Basic character and string helpers (JS semantics) -/

/-- JS word character for `\b` / `\w` (regexes here have no `u` flag):
`[A-Za-z0-9_]`. -/
def isWordChar (c : Char) : Bool :=
  (('a' ≤ c ∧ c ≤ 'z') ∨ ('A' ≤ c ∧ c ≤ 'Z') ∨ ('0' ≤ c ∧ c ≤ '9') ∨ c = '_')

/-- ASCII uppercase letter (`[A-Z]`, case-sensitive regexes). -/
def isUpperAlpha (c : Char) : Bool := 'A' ≤ c ∧ c ≤ 'Z'

/-- ASCII letter (`[A-Z]` under the `i` flag, i.e. `[A-Za-z]`). -/
def isAsciiAlpha (c : Char) : Bool := ('a' ≤ c ∧ c ≤ 'z') ∨ ('A' ≤ c ∧ c ≤ 'Z')

/-- ASCII digit (`\d` without the `u` flag matches `[0-9]`). -/
def isDigitChar (c : Char) : Bool := '0' ≤ c ∧ c ≤ '9'

/-- JS `\s` / `trim` whitespace, restricted to the characters that can occur
in the text this pipeline handles (space, tab, LF, CR, FF, VT, NBSP). -/
def isWsChar (c : Char) : Bool :=
  c = ' ' ∨ c = '\t' ∨ c = '\n' ∨ c = '\r' ∨ c = '\x0c' ∨ c = '\x0b' ∨ c = ' '

/-- `String.prototype.toLowerCase` for the ASCII range (the keyword tables and
all case-insensitive comparisons in the source are ASCII). -/
def lowerChar (c : Char) : Char :=
  if isUpperAlpha c then Char.ofNat (c.toNat + 32) else c

/-- `String.prototype.toUpperCase` for the ASCII range. -/
def upperChar (c : Char) : Char :=
  if ('a' ≤ c ∧ c ≤ 'z') then Char.ofNat (c.toNat - 32) else c

def lowerStr (s : String) : String := ⟨s.data.map lowerChar⟩

def upperStr (s : String) : String := ⟨s.data.map upperChar⟩

/-- Case-insensitive (ASCII) equality of two character lists. -/
def ciEqList (a b : List Char) : Bool :=
  (a.map lowerChar) == (b.map lowerChar)

/-- Does `hay` contain `needle` as a contiguous sublist?
Models `String.prototype.includes`. -/
def containsSub (hay needle : List Char) : Bool :=
  match hay with
  | [] => needle.isEmpty
  | _ :: rest => needle.isPrefixOf hay || containsSub rest needle

/-- `hay.includes(needle)` on strings. -/
def strIncludes (hay needle : String) : Bool := containsSub hay.data needle.data

/-- Case-insensitive (ASCII) "starts with" on character lists: does `l` start
with `pat`, comparing lower-cased? -/
def ciStartsWith (pat l : List Char) : Bool :=
  (pat.map lowerChar).isPrefixOf (l.map lowerChar)

/-- `Set.has` / first-seen insertion used to model JS `Set` iteration order:
append `x` unless already present. -/
def setAdd (acc : List String) (x : String) : List String :=
  if acc.contains x then acc else acc ++ [x]

/-- Last index (0-based) of character `c` in `l`, or `-1` when absent.
Models `String.prototype.lastIndexOf` for a single-character needle. -/
def lastIndexOfChar (l : List Char) (c : Char) : Int :=
  (l.foldl (fun (st : Int × Int) d =>
    (st.1 + 1, if d = c then st.1 else st.2)) (0, -1)).2

/-- Last index at which `p` holds in `l`, or `-1` (specification-side helper:
"search backward for the last such character"). -/
def lastIndexWhere (p : Char → Bool) (l : List Char) : Int :=
  (l.foldl (fun (st : Int × Int) d =>
    (st.1 + 1, if p d then st.1 else st.2)) (0, -1)).2

/-! ## `hashCode` / `generateId` (src/migration/src/utils, lines 301-318)

JS `hashCode` keeps `hash` a 32-bit signed integer: `hash << 5` wraps the
shifted value to 32 bits, the following `- hash + char` is exact double
arithmetic (magnitudes stay far below 2^53), and `hash & hash` applies
`ToInt32` again.  `Math.abs` then `toString(36)` render the result. -/

/-- `ToInt32`: wrap an integer to the signed 32-bit range. -/
def toInt32 (n : Int) : Int :=
  let r := n % 4294967296
  if r < 2147483648 then r else r - 4294967296

/-- One step of the rolling hash: `hash = (hash << 5) - hash + charCode`
followed by `hash = hash & hash`. -/
def hashStep (h : Int) (c : Char) : Int :=
  toInt32 (toInt32 (h * 32) - h + (c.toNat : Int))

/-- Digit character for bases up to 36 (`0-9` then `a-z`), as produced by
`Number.prototype.toString(36)`. -/
def base36Digit (d : Nat) : Char :=
  if d < 10 then Char.ofNat (48 + d) else Char.ofNat (87 + d)

/-- Base-36 digits of `n` (most significant first), fuel-driven; `fuel`
bounds recursion depth and any `fuel ≥ n+1` is sufficient. -/
def base36Go (fuel : Nat) (n : Nat) (acc : List Char) : List Char :=
  match fuel with
  | 0 => acc
  | fuel + 1 =>
    if n = 0 then acc
    else base36Go fuel (n / 36) (base36Digit (n % 36) :: acc)

/-- `Number.prototype.toString(36)` for a nonnegative integer. -/
def natToBase36 (n : Nat) : String :=
  if n = 0 then "0" else ⟨base36Go (n + 1) n []⟩

/-- `hashCode(str)`: 32-bit rolling hash of the code units, absolute value,
rendered in base 36. -/
def hashCode (s : String) : String :=
  natToBase36 (s.data.foldl hashStep 0).natAbs

/-- `generateId(url, source) = hashCode(source) + "-" + hashCode(url)`. -/
def generateId (url source : String) : String :=
  hashCode source ++ "-" ++ hashCode url

/-! ## Keyword tables and detectors (src/unnamed/part_001) -/

/-- `ALERT_KEYWORDS`, in declaration order (first match wins). -/
def ALERT_KEYWORDS : List String :=
  ["war", "invasion", "military", "nuclear", "sanctions", "missile", "attack",
   "troops", "conflict", "strike", "bomb", "casualties", "ceasefire", "treaty",
   "nato", "coup", "martial law", "emergency", "assassination", "terrorist",
   "hostage", "evacuation"]

/-- `REGION_KEYWORDS` as an ordered association list; `Object.entries`
iterates string keys in insertion order, which this list preserves. -/
def REGION_KEYWORDS : List (String × List String) :=
  [("EUROPE", ["nato", "eu", "european", "ukraine", "russia", "germany",
               "france", "uk", "britain", "poland"]),
   ("MENA", ["iran", "israel", "saudi", "syria", "iraq", "gaza", "lebanon",
             "yemen", "houthi", "middle east"]),
   ("APAC", ["china", "taiwan", "japan", "korea", "indo-pacific",
             "south china sea", "asean", "philippines"]),
   ("AMERICAS", ["us", "america", "canada", "mexico", "brazil", "venezuela",
                 "latin"]),
   ("AFRICA", ["africa", "sahel", "niger", "sudan", "ethiopia", "somalia"])]

/-- `TOPIC_KEYWORDS` as an ordered association list (insertion order). -/
def TOPIC_KEYWORDS : List (String × List String) :=
  [("CYBER", ["cyber", "hack", "ransomware", "malware", "breach", "apt",
              "vulnerability"]),
   ("NUCLEAR", ["nuclear", "icbm", "warhead", "nonproliferation", "uranium",
                "plutonium"]),
   ("CONFLICT", ["war", "military", "troops", "invasion", "strike", "missile",
                 "combat", "offensive"]),
   ("INTEL", ["intelligence", "espionage", "spy", "cia", "mossad", "fsb",
              "covert"]),
   ("DEFENSE", ["pentagon", "dod", "defense", "military", "army", "navy",
                "air force"]),
   ("DIPLO", ["diplomat", "embassy", "treaty", "sanctions", "talks", "summit",
              "bilateral"]),
   ("FINANCE", ["fed", "interest rate", "inflation", "gdp", "unemployment",
                "recession", "rally", "crash"]),
   ("CRYPTO", ["bitcoin", "ethereum", "crypto", "blockchain", "defi", "nft",
               "stablecoin"]),
   ("TECH", ["ai", "artificial intelligence", "machine learning", "startup",
             "ipo", "acquisition", "layoff"])]

/-- `containsAlertKeyword(text)`: case-insensitive substring scan of the
alert keyword list against `text`; the first matching keyword wins.
Returns `(is_alert, keyword)`. -/
def containsAlertKeyword (text : String) : Bool × Option String :=
  let lowerText := lowerStr text
  match ALERT_KEYWORDS.find? (fun k => strIncludes lowerText k) with
  | some k => (true, some k)
  | none => (false, none)

/-- `detectRegion(text)`: first region (in table order) one of whose keywords
occurs in the lower-cased text; `null` (here `none`) when none matches. -/
def detectRegion (text : String) : Option String :=
  let lowerText := lowerStr text
  (REGION_KEYWORDS.find? (fun rk =>
    rk.2.any (fun k => strIncludes lowerText k))).map (·.1)

/-- `detectTopics(text)`: every topic (in table order) one of whose keywords
occurs in the lower-cased text. -/
def detectTopics (text : String) : List String :=
  let lowerText := lowerStr text
  (TOPIC_KEYWORDS.filter (fun tk =>
    tk.2.any (fun k => strIncludes lowerText k))).map (·.1)

/-! ## Text cleaning (src/migration/src/utils `stripHtml`, src/unnamed/part_000
`cleanText`, `extractSummary`)

`String.prototype.replace` with a global literal pattern replaces the
leftmost match and resumes after the inserted replacement; `replaceAllLit`
models that with an explicit fuel (any `fuel ≥ length + 1` is sufficient,
and callers pass exactly that). -/

/-- Replace every non-overlapping occurrence of the literal pattern `pat`
(assumed non-empty at all call sites) by `repl`, scanning left to right. -/
def replaceAllLit (pat repl : List Char) (fuel : Nat) (s : List Char) : List Char :=
  match fuel, s with
  | 0, s => s
  | _, [] => []
  | fuel + 1, c :: rest =>
    if pat ≠ [] ∧ pat.isPrefixOf (c :: rest) then
      repl ++ replaceAllLit pat repl fuel ((c :: rest).drop pat.length)
    else
      c :: replaceAllLit pat repl fuel rest

/-- String-level wrapper for `replaceAllLit` with sufficient fuel. -/
def replaceAllStr (pat repl s : String) : String :=
  ⟨replaceAllLit pat.data repl.data (s.data.length + 1) s.data⟩

/-- Suffix of `l` strictly after its first `'>'`, when one exists.  Used to
model the regex `/<[^>]*>/`: a `<` opens a match exactly when a `>` follows,
and the match extends to the first such `>`. -/
def afterGt : List Char → Option (List Char)
  | [] => none
  | c :: rest => if c = '>' then some rest else afterGt rest

/-- Replace each tag `/<[^>]*>/g` by a single space.  A `<` with no later
`>` is not part of any match and is kept.  `fuel` bounds recursion depth;
any `fuel ≥ length l` is sufficient (each step consumes a character). -/
def stripTagsGo (fuel : Nat) (l : List Char) : List Char :=
  match fuel, l with
  | 0, l => l
  | _, [] => []
  | fuel + 1, c :: rest =>
    if c = '<' then
      match afterGt rest with
      | some restAfter => ' ' :: stripTagsGo fuel restAfter
      | none => c :: stripTagsGo fuel rest
    else c :: stripTagsGo fuel rest

/-- Collapse each maximal whitespace run to one space (`/\s+/g` → `' '`). -/
def collapseWs : Bool → List Char → List Char
  | _, [] => []
  | inRun, c :: cs =>
    if isWsChar c then
      if inRun then collapseWs true cs else ' ' :: collapseWs true cs
    else c :: collapseWs false cs

/-- `String.prototype.trim`. -/
def jsTrim (l : List Char) : List Char :=
  ((l.dropWhile isWsChar).reverse.dropWhile isWsChar).reverse

/-- `stripHtml(html)`: remove tags, decode the six standard entities in the
source's order (sequential passes, exactly as chained in JS), then normalize
whitespace and trim.  `!html` (empty string) short-circuits to `""`. -/
def stripHtml (html : String) : String :=
  if html = "" then "" else
  let text := stripTagsGo (html.data.length + 1) html.data
  let text := replaceAllLit "&amp;".data "&".data (text.length + 1) text
  let text := replaceAllLit "&lt;".data "<".data (text.length + 1) text
  let text := replaceAllLit "&gt;".data ">".data (text.length + 1) text
  let text := replaceAllLit "&quot;".data "\"".data (text.length + 1) text
  let text := replaceAllLit "&#39;".data "'".data (text.length + 1) text
  let text := replaceAllLit "&nbsp;".data " ".data (text.length + 1) text
  ⟨jsTrim (collapseWs false text)⟩

/-- Does the lower-cased list end with the (lower-case) pattern?  Models an
`/…$/i` anchored regex test. -/
def endsWithCI (pat l : List Char) : Bool :=
  (pat.map lowerChar).isSuffixOf (l.map lowerChar)

/-- `replace(/pat$/i, '')`: drop the suffix when it matches
case-insensitively. -/
def stripSuffixCI (pat : String) (l : List Char) : List Char :=
  if endsWithCI pat.data l then l.take (l.length - pat.data.length) else l

/-- `cleanText(text)` (src/unnamed/part_000 lines 12-28): strip HTML, remove
RSS artifacts (`[â€¦]`, `[...]`, trailing "Continue reading..." /
"Read more..."), collapse whitespace, trim. -/
def cleanText (text : String) : String :=
  if text = "" then "" else
  let clean := (stripHtml text).data
  let clean := replaceAllLit "[â€¦]".data "...".data (clean.length + 1) clean
  let clean := replaceAllLit "[...]".data "...".data (clean.length + 1) clean
  let clean := stripSuffixCI "Continue reading..." clean
  let clean := stripSuffixCI "Read more..." clean
  let clean := collapseWs false clean
  ⟨jsTrim clean⟩

/-- `extractSummary(content, maxLength = 300)` (src/unnamed/part_000 lines
34-61).  The comparisons `boundary > maxLength * 0.5` and
`lastSpace > maxLength * 0.7` are modelled as the exact rational
comparisons `2*boundary > maxLength` and `10*lastSpace > 7*maxLength`;
`maxLength * 0.5` is exact in JS doubles, and `maxLength * 0.7` agrees with
the rational threshold for all realistic lengths. -/
def extractSummary (content : String) (maxLength : Nat := 300) : String :=
  if content = "" then "" else
  let clean := (cleanText content).data
  if clean.length ≤ maxLength then ⟨clean⟩ else
  let truncated := clean.take maxLength
  let lastPeriod := lastIndexOfChar truncated '.'
  let lastQuestion := lastIndexOfChar truncated '?'
  let lastExclaim := lastIndexOfChar truncated '!'
  let boundary := max (max lastPeriod lastQuestion) lastExclaim
  if 2 * boundary > (maxLength : Int) then
    ⟨clean.take (boundary + 1).toNat⟩
  else
    let lastSpace := lastIndexOfChar truncated ' '
    if 10 * lastSpace > 7 * (maxLength : Int) then
      ⟨clean.take lastSpace.toNat ++ "...".data⟩
    else
      ⟨truncated ++ "...".data⟩

/-- Specification-side restatement of `extractSummary` (§4.3 Summarize):
single backward search for the last sentence terminator / last space,
expressed with `lastIndexWhere`. -/
def summarizeSpec (content : String) (maxLength : Nat) : String :=
  if content = "" then "" else
  let clean := (cleanText content).data
  if clean.length ≤ maxLength then ⟨clean⟩ else
  let truncated := clean.take maxLength
  let boundary := lastIndexWhere (fun c => c = '.' ∨ c = '?' ∨ c = '!') truncated
  if 2 * boundary > (maxLength : Int) then
    ⟨clean.take (boundary + 1).toNat⟩
  else
    let lastSpace := lastIndexWhere (fun c => c = ' ') truncated
    if 10 * lastSpace > 7 * (maxLength : Int) then
      ⟨clean.take lastSpace.toNat ++ "...".data⟩
    else
      ⟨truncated ++ "...".data⟩

/-! ## Ticker extraction (src/unnamed/part_001 `TICKER_PATTERNS`,
`extractTickers`)

Each of the three global regexes is modelled by a scanner that walks the
text left to right, emitting the captured group of each non-overlapping
match in order, exactly as the `exec` loop does (`lastIndex` advances to
the end of each match).  Scanners carry the previous character to decide
`\b` word boundaries. -/

/-- Is a position a `\b` boundary given the previous character (`none` at
the start of input) and the fact that the current character is a word
character? -/
def boundaryBefore (prev : Option Char) : Bool :=
  match prev with
  | none => true
  | some p => !isWordChar p

/-- `\b` after a match: end of input or a non-word character. -/
def boundaryAfter (l : List Char) : Bool :=
  match l with
  | [] => true
  | d :: _ => !isWordChar d


/-- Scanner for the first ticker pattern `/\$([A-Z]{1,5})\b/g`
(case-sensitive): a `$`, then a maximal run of 1-5 uppercase letters, then
a word boundary.  A run longer than 5 can never satisfy the trailing `\b`
(backtracking would have to end the group between two letters), so it is
rejected wholesale.  `fuel` bounds the recursion; any `fuel ≥ length l`
is sufficient since every step consumes at least one character. -/
def tickerDollarGo (fuel : Nat) (l : List Char) : List (List Char) :=
  match fuel, l with
  | 0, _ => []
  | _, [] => []
  | fuel + 1, c :: cs =>
    if c = '$' then
      let run := cs.takeWhile isUpperAlpha
      if 1 ≤ run.length ∧ run.length ≤ 5 ∧ boundaryAfter (cs.drop run.length) then
        run :: tickerDollarGo fuel (cs.drop run.length)
      else tickerDollarGo fuel cs
    else tickerDollarGo fuel cs

/-- The lookahead of the second pattern:
`(?=\s+(?:stock|shares|inc|corp|ltd))`, case-insensitive.  `\s+` is a
maximal whitespace run (the alternatives all start with letters), then one
alternative must match as a prefix. -/
def businessLookahead (l : List Char) : Bool :=
  match l with
  | [] => false
  | c :: cs =>
    isWsChar c &&
      (let rest := cs.dropWhile isWsChar
       ["stock", "shares", "inc", "corp", "ltd"].any
         (fun w => ciStartsWith w.data rest))

/-- Scanner for `/\b([A-Z]{2,5})\b(?=\s+(?:stock|shares|inc|corp|ltd))/gi`.
With the `i` flag, `[A-Z]` matches letters of either case.  The two `\b`s
force the captured run to be a maximal all-letter word of length 2-5 (a
longer letter run, or a digit/underscore adjacent to it, admits no
boundary).  The lookahead consumes nothing, but `lastIndex` advances past
the token.  `prev` is the previous character (for `\b`). -/
def tickerBizGo (fuel : Nat) (prev : Option Char) (l : List Char) : List (List Char) :=
  match fuel, l with
  | 0, _ => []
  | _, [] => []
  | fuel + 1, c :: cs =>
    let run := (c :: cs).takeWhile isAsciiAlpha
    if boundaryBefore prev ∧ 2 ≤ run.length ∧ run.length ≤ 5 ∧
        boundaryAfter ((c :: cs).drop run.length) ∧
        businessLookahead ((c :: cs).drop run.length) then
      run :: tickerBizGo fuel (some (run.getLastD c)) ((c :: cs).drop run.length)
    else tickerBizGo fuel (some c) cs

/-- The crypto whitelist, in the alternation order of
`/\b(BTC|ETH|SOL|XRP|ADA|DOGE|DOT|AVAX|MATIC|LINK)\b/gi`. -/
def CRYPTO_ALTS : List String :=
  ["BTC", "ETH", "SOL", "XRP", "ADA", "DOGE", "DOT", "AVAX", "MATIC", "LINK"]

/-- Try the crypto alternatives in order at the current position: the first
case-insensitive prefix match followed by a `\b` wins; the raw matched text
is captured. -/
def cryptoAt (l : List Char) : Option (List Char) :=
  (CRYPTO_ALTS.find? (fun alt =>
    ciStartsWith alt.data l && boundaryAfter (l.drop alt.data.length))).map
    (fun alt => l.take alt.data.length)

/-- Scanner for the crypto pattern. -/
def tickerCryptoGo (fuel : Nat) (prev : Option Char) (l : List Char) : List (List Char) :=
  match fuel, l with
  | 0, _ => []
  | _, [] => []
  | fuel + 1, c :: cs =>
    if boundaryBefore prev then
      match cryptoAt (c :: cs) with
      | some m =>
        m :: tickerCryptoGo fuel (some (m.getLastD c)) ((c :: cs).drop m.length)
      | none => tickerCryptoGo fuel (some c) cs
    else tickerCryptoGo fuel (some c) cs

/-- Matches of the three `TICKER_PATTERNS` over the whole text, as captured
(raw) strings. -/
def tickerMatches1 (text : String) : List String :=
  (tickerDollarGo (text.data.length + 1) text.data).map (fun l => ⟨l⟩)

def tickerMatches2 (text : String) : List String :=
  (tickerBizGo (text.data.length + 1) none text.data).map (fun l => ⟨l⟩)

def tickerMatches3 (text : String) : List String :=
  (tickerCryptoGo (text.data.length + 1) none text.data).map (fun l => ⟨l⟩)

/-- `extractTickers(text)` (src/unnamed/part_001 lines 266-279): run the
three pattern loops in order, adding `match[1].toUpperCase()` to a `Set`,
then emit the set in insertion (first-seen) order. -/
def extractTickers (text : String) : List String :=
  let s1 := (tickerMatches1 text).foldl (fun acc m => setAdd acc (upperStr m)) []
  let s2 := (tickerMatches2 text).foldl (fun acc m => setAdd acc (upperStr m)) s1
  let s3 := (tickerMatches3 text).foldl (fun acc m => setAdd acc (upperStr m)) s2
  s3

/-- First-seen de-duplication of a list of strings (specification-side:
"de-duplicated ... emitted as an ordered list in first-seen order"). -/
def dedupFirstSeen (l : List String) : List String := l.foldl setAdd []

/-! ## Date parsing (src/unnamed/part_000 `parseDate`, src/migration/src/utils
`parseGdeltDate`)

The host's `Date` is modelled by an explicit parameter
`native : String → Option String` standing for
`s ↦ (new Date(s) is valid ? some (new Date(s).toISOString()) : none)`:
`none` corresponds to an invalid date, whose `toISOString()` throws.
ECMA-262 fixes `native` on Date-Time-String-Format (ISO) inputs; elsewhere
it is implementation-defined, which is why it stays a parameter.  The
current clock (`new Date().toISOString()`) is the parameter `now`. -/

/-- Exactly `n` leading ASCII digits: returns (digits, rest) or `none`. -/
def takeDigits : Nat → List Char → Option (List Char × List Char)
  | 0, l => some ([], l)
  | _ + 1, [] => none
  | n + 1, c :: cs =>
    if isDigitChar c then
      (takeDigits n cs).map (fun p => (c :: p.1, p.2))
    else none

/-- A single literal character. -/
def expectChar (c : Char) : List Char → Option (List Char)
  | [] => none
  | d :: rest => if d = c then some rest else none

/-- `\s+`: at least one whitespace character, consumed greedily (the
following tokens in these patterns never start with whitespace, so the
maximal munch is exact). -/
def wsPlus : List Char → Option (List Char)
  | [] => none
  | c :: cs => if isWsChar c then some (cs.dropWhile isWsChar) else none

/-- Exactly `n` leading ASCII letters. -/
def takeAlpha : Nat → List Char → Option (List Char)
  | 0, l => some l
  | _ + 1, [] => none
  | n + 1, c :: cs => if isAsciiAlpha c then takeAlpha n cs else none

/-- `\d{1,2}` followed (in the enclosing pattern) by `\s`: the maximal digit
run must have length 1 or 2, otherwise no backtracking can succeed. -/
def take1or2Digits (l : List Char) : Option (List Char) :=
  let run := l.takeWhile isDigitChar
  if 1 ≤ run.length ∧ run.length ≤ 2 then some (l.drop run.length) else none

/-- Prefix test for the RFC-2822-like pattern
`/^[A-Za-z]{3},?\s+\d{1,2}\s+[A-Za-z]{3}\s+\d{4}\s+\d{2}:\d{2}:\d{2}/`.
The fixed-width digit groups admit no backtracking, so the following
literal/whitespace requirement makes each group's width exact. -/
def rfc2822Match (l : List Char) : Bool :=
  (do
    let l ← takeAlpha 3 l
    let l := match expectChar ',' l with | some l' => l' | none => l
    let l ← wsPlus l
    let l ← take1or2Digits l
    let l ← wsPlus l
    let l ← takeAlpha 3 l
    let l ← wsPlus l
    let (_, l) ← takeDigits 4 l
    let l ← wsPlus l
    let (_, l) ← takeDigits 2 l
    let l ← expectChar ':' l
    let (_, l) ← takeDigits 2 l
    let l ← expectChar ':' l
    let (_, _) ← takeDigits 2 l
    pure ()).isSome

/-- Prefix test for the ISO-like pattern
`/^\d{4}-\d{2}-\d{2}T\d{2}:\d{2}:\d{2}/`. -/
def isoLikeMatch (l : List Char) : Bool :=
  (do
    let (_, l) ← takeDigits 4 l
    let l ← expectChar '-' l
    let (_, l) ← takeDigits 2 l
    let l ← expectChar '-' l
    let (_, l) ← takeDigits 2 l
    let l ← expectChar 'T' l
    let (_, l) ← takeDigits 2 l
    let l ← expectChar ':' l
    let (_, l) ← takeDigits 2 l
    let l ← expectChar ':' l
    let (_, _) ← takeDigits 2 l
    pure ()).isSome

/-- Full match for the GDELT pattern
`/^(\d{4})(\d{2})(\d{2})T(\d{2})(\d{2})(\d{2})Z$/`, returning the six
captured digit groups. -/
def gdeltMatch (l : List Char) :
    Option (String × String × String × String × String × String) := do
  let (y, l) ← takeDigits 4 l
  let (mo, l) ← takeDigits 2 l
  let (d, l) ← takeDigits 2 l
  let l ← expectChar 'T' l
  let (h, l) ← takeDigits 2 l
  let (mi, l) ← takeDigits 2 l
  let (s, l) ← takeDigits 2 l
  let l ← expectChar 'Z' l
  if l.isEmpty then pure (⟨y⟩, ⟨mo⟩, ⟨d⟩, ⟨h⟩, ⟨mi⟩, ⟨s⟩) else none

/-- Rebuild the ISO separator form
`` `${year}-${month}-${day}T${hour}:${min}:${sec}Z` `` from the GDELT
groups. -/
def gdeltToIso (g : String × String × String × String × String × String) : String :=
  g.1 ++ "-" ++ g.2.1 ++ "-" ++ g.2.2.1 ++ "T" ++ g.2.2.2.1 ++ ":" ++
    g.2.2.2.2.1 ++ ":" ++ g.2.2.2.2.2 ++ "Z"

/-- `parseDate(dateStr)` (src/unnamed/part_000 lines 139-178).  `!dateStr`
(undefined or empty) falls back to `now`.  Otherwise the native parse is
tried; on failure the three format regexes are tried in order.  A matched
RFC/ISO format re-runs the native parse on the same string (`match.length`
is 1 for those patterns), whose `toISOString()` throws again, continuing
the loop; a matched GDELT format native-parses the rebuilt ISO string.  If
nothing succeeds the result is the current time. -/
def parseDate (native : String → Option String) (now : String) (s : String) : String :=
  if s = "" then now else
  match native s with
  | some iso => iso
  | none =>
    match (if rfc2822Match s.data then native s else none) with
    | some iso => iso
    | none =>
      match (if isoLikeMatch s.data then native s else none) with
      | some iso => iso
      | none =>
        match (match gdeltMatch s.data with
               | some g => native (gdeltToIso g)
               | none => none) with
        | some iso => iso
        | none => now

/-- `parseGdeltDate(dateStr)` (src/migration/src/utils lines 323-338): on a
GDELT-format match the ISO separator form is returned directly (no `Date`
round-trip); otherwise the native parse is tried and a failure (throwing
`toISOString`) falls back to `now`. -/
def parseGdeltDate (native : String → Option String) (now : String)
    (s : String) : String :=
  if s = "" then now else
  match gdeltMatch s.data with
  | some g => gdeltToIso g
  | none =>
    match native s with
    | some iso => iso
    | none => now

/-! ## Data model (src/unnamed/part_000 `NormalizedNewsItem`, `NewsMetadata`,
`FilterConfig`, `PipelineError`, `PipelineResult`)

`Option` models TS optional / possibly-`undefined` fields.  The opaque
`raw` trace payload of `NewsMetadata` is not modelled: no claim concerns
it and it never influences control flow. -/

structure NewsMetadata where
  category : Option String := none
  is_alert : Option Bool := none
  alert_keyword : Option String := none
  region : Option String := none
  domain : Option String := none
  image_url : Option String := none
  deriving Repr, DecidableEq

structure NewsItem where
  id : String
  source : String
  url : String
  title : String
  published_at : String
  fetched_at : String
  authors : List String
  summary : String
  content_text : String
  tickers : List String
  topics : List String
  language : String
  metadata : NewsMetadata
  deriving Repr, DecidableEq

/-- `Partial<NormalizedNewsItem>`: every field possibly `undefined`. -/
structure PartialNewsItem where
  id : Option String := none
  source : Option String := none
  url : Option String := none
  title : Option String := none
  published_at : Option String := none
  fetched_at : Option String := none
  authors : Option (List String) := none
  summary : Option String := none
  content_text : Option String := none
  tickers : Option (List String) := none
  topics : Option (List String) := none
  language : Option String := none
  metadata : Option NewsMetadata := none
  deriving Repr, DecidableEq

/-- View a complete record as a `Partial` one (all fields present): how
`runPipeline` passes fetched `NormalizedNewsItem`s to `normalizeItem`. -/
def asPartialItem (x : NewsItem) : PartialNewsItem :=
  { id := some x.id, source := some x.source, url := some x.url,
    title := some x.title, published_at := some x.published_at,
    fetched_at := some x.fetched_at, authors := some x.authors,
    summary := some x.summary, content_text := some x.content_text,
    tickers := some x.tickers, topics := some x.topics,
    language := some x.language, metadata := some x.metadata }

/-- Locate the first `://` in a URL and return what follows. -/
def findScheme : List Char → Option (List Char)
  | [] => none
  | ':' :: '/' :: '/' :: rest => some rest
  | _ :: rest => findScheme rest

/-- `extractDomain(url)` (src/migration/src/utils lines 407-414), modelling
the WHATWG `new URL(url).hostname` for ordinary absolute `scheme://host/...`
URLs: the host is what lies between `://` and the next `/`, `:`, `?` or
`#`, lower-cased; a leading `www.` is stripped; anything unparsable yields
`''` (the `catch` branch). -/
def extractDomain (url : String) : String :=
  let l := url.data
  match findScheme l with
  | none => ""
  | some rest =>
    let host := rest.takeWhile (fun c => ¬(c = '/' ∨ c = ':' ∨ c = '?' ∨ c = '#'))
    if host.isEmpty then ""
    else
      let host := host.map lowerChar
      if "www.".data.isPrefixOf host then ⟨host.drop 4⟩ else ⟨host⟩

/-- JS string truthiness: `undefined` and `''` are falsy. -/
def strTruthy : Option String → Bool
  | some s => s ≠ ""
  | none => false

/-- `a || b` on an optional string versus a fallback. -/
def strOr (a : Option String) (b : String) : String :=
  match a with
  | some s => if s = "" then b else s
  | none => b

/-- `normalizeItem(item)` (src/unnamed/part_000 lines 66-102): clean the
text fields, then re-derive topics / tickers / region / alert only when the
incoming field is empty or undefined, and fill documented defaults.  The
two `new Date().toISOString()` fallbacks are the parameter `now`. -/
def normalizeItem (now : String) (item : PartialNewsItem) : NewsItem :=
  let title := cleanText (item.title.getD "")
  let summary := match item.summary with
    | some s => if s = "" then "" else cleanText s
    | none => ""
  let content := match item.content_text with
    | some s => if s = "" then "" else cleanText s
    | none => ""
  let fullText := title ++ " " ++ summary ++ " " ++ content
  let topics := match item.topics with
    | some ts => if ts.isEmpty then detectTopics fullText else ts
    | none => detectTopics fullText
  let tickers := match item.tickers with
    | some ts => if ts.isEmpty then extractTickers fullText else ts
    | none => extractTickers fullText
  let region : Option String :=
    match item.metadata.bind (·.region) with
    | some r => if r = "" then detectRegion fullText else some r
    | none => detectRegion fullText
  let alert : Bool × Option String :=
    match item.metadata.bind (·.is_alert) with
    | some b => (b, item.metadata.bind (·.alert_keyword))
    | none => containsAlertKeyword title
  { id := item.id.getD "",
    source := strOr item.source (extractDomain (item.url.getD "")),
    url := item.url.getD "",
    title := title,
    published_at := strOr item.published_at now,
    fetched_at := strOr item.fetched_at now,
    authors := item.authors.getD [],
    summary := if summary = "" then extractSummary content else summary,
    content_text := content,
    tickers := tickers,
    topics := topics,
    language := strOr item.language "en",
    metadata :=
      { item.metadata.getD {} with
        is_alert := some alert.1,
        alert_keyword := alert.2,
        region := region } }

/-! ## GDELT connector (src/migration/src/connectors/gdelt.ts
`transformArticle`) -/

structure GdeltArticle where
  title : String
  url : String
  seendate : String
  domain : String
  socialimage : Option String := none
  language : Option String := none
  deriving Repr, DecidableEq

/-- `transformArticle(article, category, index)` (gdelt.ts lines 33-66);
`index` is accepted and unused, as in the source.  Title enrichment uses
`containsAlertKeyword` / `detectRegion` / `detectTopics` on the raw title;
tickers are intentionally left empty.  `native`/`now` model the host
clock/date (used by `parseGdeltDate` and `nowISO`). -/
def transformArticle (native : String → Option String) (now : String)
    (article : GdeltArticle) (category : String) (_index : Nat) : NewsItem :=
  let title := article.title
  let alert := containsAlertKeyword title
  let region := detectRegion title
  let topics := detectTopics title
  { id := generateId article.url ("gdelt-" ++ category),
    source := if article.domain = "" then "GDELT" else article.domain,
    url := article.url,
    title := title,
    published_at := parseGdeltDate native now article.seendate,
    fetched_at := now,
    authors := [],
    summary := "",
    content_text := "",
    tickers := [],
    topics := topics,
    language := strOr article.language "en",
    metadata :=
      { category := some category,
        is_alert := some alert.1,
        alert_keyword := alert.2,
        region := region,
        domain := some article.domain,
        image_url := article.socialimage } }

/-! ## Filter engine (src/migration/src/pipeline/index.ts `filterItems`,
lines 42-94)

The host's `new Date(s).getTime()` is the parameter
`parse : String → Option Int` (`none` = `NaN`), and `Date.now()` is
`nowMs`.  TS optional arrays in `FilterConfig` are plain lists here: an
absent array and an empty one behave identically under the
`config.xs?.length` truthiness checks.  `max_age_ms` keeps its optionality
(`if (config.max_age_ms)` also skips an explicit `0`). -/

structure FilterConfig where
  include_keywords : List String := []
  exclude_keywords : List String := []
  categories : List String := []
  regions : List String := []
  topics : List String := []
  max_age_ms : Option Int := none
  deriving Repr, DecidableEq

/-- The predicate of `items.filter(...)` in `filterItems`, one conjunct per
configured filter, in source order. -/
def itemPasses (parse : String → Option Int) (nowMs : Int)
    (config : FilterConfig) (item : NewsItem) : Bool :=
  -- Category filter: applied only when categories are configured and the
  -- record carries a (truthy) category.
  (if ¬config.categories.isEmpty ∧ strTruthy item.metadata.category then
    config.categories.contains (item.metadata.category.getD "")
  else true) &&
  -- Region filter, same shape.
  (if ¬config.regions.isEmpty ∧ strTruthy item.metadata.region then
    config.regions.contains (item.metadata.region.getD "")
  else true) &&
  -- Topic filter: any of the record's topics must be allowed.
  (if ¬config.topics.isEmpty then
    item.topics.any (fun t => config.topics.contains t)
  else true) &&
  -- Include keywords: title+summary must contain one, case-insensitively.
  (if ¬config.include_keywords.isEmpty then
    let text := lowerStr (item.title ++ " " ++ item.summary)
    config.include_keywords.any (fun k => strIncludes text (lowerStr k))
  else true) &&
  -- Exclude keywords: drop when one occurs.
  (if ¬config.exclude_keywords.isEmpty then
    let text := lowerStr (item.title ++ " " ++ item.summary)
    !config.exclude_keywords.any (fun k => strIncludes text (lowerStr k))
  else true) &&
  -- Age filter: `Date.now() - getTime() > max_age_ms` drops the record;
  -- an unparsable date makes the comparison NaN > n, which is false, so
  -- the record passes.
  (match config.max_age_ms with
   | some maxAge =>
     if maxAge ≠ 0 then
       match parse item.published_at with
       | some t => decide (nowMs - t ≤ maxAge)
       | none => true
     else true
   | none => true)

/-- `filterItems(items, config)`. -/
def filterItems (parse : String → Option Int) (nowMs : Int)
    (config : FilterConfig) (items : List NewsItem) : List NewsItem :=
  items.filter (fun item => itemPasses parse nowMs config item)

/-! ## Deduplication engine (pipeline/index.ts `deduplicateItems`,
lines 99-122) -/

/-- The title fingerprint: title lower-cased, all characters outside
`[a-z0-9]` removed (`replace(/[^a-z0-9]/g, '')`), then hashed. -/
def normalizedTitle (title : String) : String :=
  ⟨(title.data.map lowerChar).filter
    (fun c => ('a' ≤ c ∧ c ≤ 'z') ∨ ('0' ≤ c ∧ c ≤ '9'))⟩

/-- A record's dedup fingerprint, `hashCode` of the normalized title. -/
def titleFingerprint (item : NewsItem) : String :=
  hashCode (normalizedTitle item.title)

/-- The loop of `deduplicateItems`: `kept` are the values of the `seen` map
in insertion order (its keys are pairwise distinct ids, so
`Array.from(seen.values())` is exactly the kept records in kept order),
`ids` the key set of `seen`, `hashes` the `titleHashes` set. -/
def dedupGo : List NewsItem → List NewsItem → List String → List String →
    List NewsItem
  | [], kept, _, _ => kept
  | item :: rest, kept, ids, hashes =>
    if ids.contains item.id then dedupGo rest kept ids hashes
    else
      let titleHash := titleFingerprint item
      if hashes.contains titleHash then dedupGo rest kept ids hashes
      else dedupGo rest (kept ++ [item]) (ids ++ [item.id]) (hashes ++ [titleHash])

/-- `deduplicateItems(items)`. -/
def deduplicateItems (items : List NewsItem) : List NewsItem :=
  dedupGo items [] [] []

/-- Specification-side deduplication (§4.5 and claim C3): process records in
input order and keep a record exactly when no previously *kept* record has
its id or its title fingerprint ("first-seen wins"; the sets are updated
only when a record is kept). -/
def dedupSpecGo (acc : List NewsItem) : List NewsItem → List NewsItem
  | [] => acc
  | item :: rest =>
    if (∃ y ∈ acc, y.id = item.id) ∨
        (∃ y ∈ acc, titleFingerprint y = titleFingerprint item) then
      dedupSpecGo acc rest
    else dedupSpecGo (acc ++ [item]) rest

def dedupSpec (items : List NewsItem) : List NewsItem := dedupSpecGo [] items

/-! ## Sort stage (pipeline/index.ts `sortItems`, lines 127-133)

`[...items].sort((a, b) => dateB - dateA)`.  `new Date(x).getTime()` is the
parameter `parse` (`none` = `NaN`).  Per ECMA-262, a comparator result of
`NaN` is treated as `+0`, and `Array.prototype.sort` is stable; with an
everywhere-`NaN`-free comparator any stable algorithm gives the same
output, and we model the sort as a stable insertion sort.  (When some date
is unparsable the comparator is inconsistent and ECMA-262 leaves the order
implementation-defined; the model fixes the insertion-sort outcome, which
agrees with every stable sort on the two-element lists used below.) -/

/-- `jsLeBy parse a b`: the comparator `dateB - dateA` applied to `(a, b)`
is `≤ 0` (so `a` may stay before `b`); a `NaN` comparison counts as `0`. -/
def jsLeBy (parse : String → Option Int) (a b : NewsItem) : Bool :=
  match parse a.published_at, parse b.published_at with
  | some ta, some tb => decide (tb - ta ≤ 0)
  | _, _ => true

/-- Stable insertion of `x` (an earlier-input element) into the already
sorted list of later-input elements: `x` goes before the first `y` it need
not follow. -/
def sortInsert (le : NewsItem → NewsItem → Bool) (x : NewsItem) :
    List NewsItem → List NewsItem
  | [] => [x]
  | y :: ys => if le x y then x :: y :: ys else y :: sortInsert le x ys

/-- `sortItems(items)`: stable sort by publication date, newest first. -/
def sortItems (parse : String → Option Int) (items : List NewsItem) :
    List NewsItem :=
  items.foldr (sortInsert (jsLeBy parse)) []

/-! ## Pipeline orchestrator (pipeline/index.ts `runPipeline`,
lines 138-261)

The connectors' network fetches and the storage adapter's `save` are
oracles: each is an `Except String _` whose `error` case models a thrown
exception caught by the corresponding `try`/`catch`.  Host time is
supplied by `nowIso` (every `new Date().toISOString()` of the run), `nowMs`
/ `startMs` / `endMs` (`Date.now()`), and `dateParse`
(`new Date(s).getTime()`).  The filter option is `some cfg` when a filter
configuration with at least one key was supplied
(`Object.keys(opts.filter).length > 0`), `none` otherwise; `storage` is
`some save-outcome` when an adapter was supplied.  The parse stage's
`try`/`catch` cannot fire in the model (`normalizeItem` is total), matching
the source where `map(normalizeItem)` only throws on exceptional host
failure. -/

structure StageError where
  stage : String
  source : Option String := none
  message : String
  timestamp : String
  deriving Repr, DecidableEq

structure PipeStats where
  fetched : Nat
  parsed : Nat
  filtered : Nat
  deduplicated : Nat
  duration_ms : Int
  deriving Repr, DecidableEq

structure PipelineResult where
  items : List NewsItem
  stats : PipeStats
  errors : List StageError
  deriving Repr, DecidableEq

structure PipelineEnv where
  gdeltFetch : Except String (List NewsItem)
  rssFetch : Except String (List NewsItem)
  intelFetch : Except String (List NewsItem)
  dateParse : String → Option Int
  nowIso : String
  nowMs : Int
  startMs : Int
  endMs : Int

structure PipelineOpts where
  useGdelt : Bool := true
  useRss : Bool := true
  useIntel : Bool := true
  filter : Option FilterConfig := none
  storage : Option (Except String Unit) := none

/-- One source family of the fetch stage: its items on success, or zero
items plus a recorded `StageError` on a thrown fetch error. -/
def fetchFamily (enabled : Bool) (outcome : Except String (List NewsItem))
    (label : String) (nowIso : String) : List NewsItem × List StageError :=
  if enabled then
    match outcome with
    | .ok items => (items, [])
    | .error msg => ([], [{ stage := "fetch", source := some label,
                            message := msg, timestamp := nowIso }])
  else ([], [])

/-- `runPipeline(options)`. -/
def runPipeline (env : PipelineEnv) (opts : PipelineOpts) : PipelineResult :=
  -- Stage 1: fetch, each enabled family isolated by its own try/catch.
  let g := fetchFamily opts.useGdelt env.gdeltFetch "GDELT" env.nowIso
  let r := fetchFamily opts.useRss env.rssFetch "RSS" env.nowIso
  let i := fetchFamily opts.useIntel env.intelFetch "Intel" env.nowIso
  let allItems := g.1 ++ r.1 ++ i.1
  let errors := g.2 ++ r.2 ++ i.2
  let fetched := allItems.length
  -- Stage 2: parse/normalize (idempotent second pass).
  let parsedItems := allItems.map (fun item => normalizeItem env.nowIso
    (asPartialItem item))
  let parsed := parsedItems.length
  -- Stage 3: filter, only when a non-empty filter config was supplied.
  let afterFilter := match opts.filter with
    | some cfg => filterItems env.dateParse env.nowMs cfg parsedItems
    | none => parsedItems
  let filteredCount := parsedItems.length - afterFilter.length
  -- Stage 4: deduplicate, then sort by date; always run.
  let deduped := deduplicateItems afterFilter
  let dedupCount := afterFilter.length - deduped.length
  let sorted := sortItems env.dateParse deduped
  -- Stage 5: store when an adapter was supplied; a save error is captured.
  let errors := match opts.storage with
    | some (.error msg) => errors ++ [{ stage := "store", source := none,
                                        message := msg, timestamp := env.nowIso }]
    | _ => errors
  { items := sorted,
    stats := { fetched := fetched, parsed := parsed,
               filtered := filteredCount, deduplicated := dedupCount,
               duration_ms := env.endMs - env.startMs },
    errors := errors }

/-! ## Specification-side relations and concrete sample data -/

/-- "Newest first": whenever both records' dates parse, the later list
element's timestamp is not greater. -/
def newestFirst (parse : String → Option Int) (a b : NewsItem) : Prop :=
  ∀ ta tb, parse a.published_at = some ta → parse b.published_at = some tb →
    tb ≤ ta

/-- A concrete host-date-parse oracle for witnesses: three fixed ISO dates
parse (to ordered timestamps), everything else is `NaN`. -/
def demoParse : String → Option Int := fun s =>
  if s = "2024-01-01T00:00:00Z" then some 1704067200000
  else if s = "2024-01-02T00:00:00Z" then some 1704153600000
  else if s = "2024-01-03T00:00:00Z" then some 1704240000000
  else none

/-- Concrete record builder for witnesses and counterexamples. -/
def sampleItem (id title published : String) : NewsItem :=
  { id := id, source := "Example", url := "https://example.com/" ++ id,
    title := title, published_at := published,
    fetched_at := "2024-01-03T01:00:00Z", authors := [], summary := "",
    content_text := "", tickers := [], topics := [], language := "en",
    metadata := {} }

def demoItem1 : NewsItem := sampleItem "a1" "Article one" "2024-01-01T00:00:00Z"

def demoItem2 : NewsItem := sampleItem "a2" "Article two" "2024-01-02T00:00:00Z"

def demoItem3 : NewsItem := sampleItem "a3" "Article three" "2024-01-03T00:00:00Z"

/-- A record whose `published_at` does not parse. -/
def demoItemBad : NewsItem := sampleItem "bad" "Broken date" "not-a-date"

/-- A concrete host `Date` oracle for `parseDate` witnesses: conforms to
ECMA-262 on the one ISO Date-Time-Format string it is asked about and
rejects everything else. -/
def demoNative : String → Option String := fun s =>
  if s = "2024-01-15T12:00:00Z" then some "2024-01-15T12:00:00.000Z" else none

/-- The two GDELT articles of claim C1's scenario. -/
def gdeltArticle1 : GdeltArticle :=
  { title := "Cyber attack on military base",
    url := "https://example.com/cyber-attack",
    seendate := "20240115T120000Z", domain := "example.com" }

def gdeltArticle2 : GdeltArticle :=
  { title := "Routine earnings report",
    url := "https://example.com/earnings",
    seendate := "20240115T120000Z", domain := "example.com" }

/-- The two records of the C1 scenario, as `fetchGdeltCategory` maps the
response's `articles` array through `transformArticle`. -/
def gdeltRecord1 : NewsItem :=
  transformArticle (fun _ => none) "2024-01-15T12:30:00.000Z" gdeltArticle1 "intel" 0

def gdeltRecord2 : NewsItem :=
  transformArticle (fun _ => none) "2024-01-15T12:30:00.000Z" gdeltArticle2 "intel" 1

/-- Concrete pipeline environment for the C9 witness: the GDELT fetch
throws, the other families succeed with one record each. -/
def demoEnv : PipelineEnv :=
  { gdeltFetch := .error "network unreachable",
    rssFetch := .ok [demoItem1],
    intelFetch := .ok [demoItem2],
    dateParse := demoParse,
    nowIso := "2024-01-03T01:00:00Z",
    nowMs := 1704243600000, startMs := 1704243600000, endMs := 1704243600500 }

/-- Concrete pipeline options for the C9 witness: a storage adapter was
supplied and its `save` throws. -/
def demoOpts : PipelineOpts :=
  { storage := some (.error "disk full") }

/-- A partially populated record whose enrichment fields a connector has
already computed (for the C8 witness). -/
def demoPrefilled : PartialNewsItem :=
  { title := some "war in ukraine",
    topics := some ["MANUAL"],
    tickers := some ["ZZZT"],
    metadata := some { region := some "APAC", is_alert := some false } }

/-- A filter configuration that allows only some categories and regions
(for the C10 witness). -/
def demoFilterCfg : FilterConfig :=
  { categories := ["tech", "finance"], regions := ["EUROPE"],
    include_keywords := ["article"] }

/-! # Theorems for the claims -/

/-- Claim C4: for every `(source, url)` pair the generated id is a
deterministic pure function of the pair — two evaluations of
`generateId(url, source)` on equal inputs return the same string — and it
is structurally `hashCode(source) + "-" + hashCode(url)`, so it depends on
nothing but the two strings. -/
theorem generateId_deterministic :
    (∀ url source url' source', url = url' → source = source' →
      generateId url source = generateId url' source') ∧
    (∀ url source, generateId url source =
      hashCode source ++ "-" ++ hashCode url) := by
  constructor
  · intro url source url' source' hu hs
    rw [hu, hs]
  · intro url source
    rfl

/-- Witness for C4 at a concrete pair. -/
theorem generateId_deterministic_witness :
    generateId "https://example.com/story" "gdelt-tech" =
      generateId "https://example.com/story" "gdelt-tech" :=
  generateId_deterministic.1 "https://example.com/story" "gdelt-tech"
    "https://example.com/story" "gdelt-tech" rfl rfl

/-- Counterexample for claim C1: the claim asserts that the record built
from the article titled "Cyber attack on military base" has
`metadata.is_alert = false`; in fact `containsAlertKeyword` finds the alert
keyword "military" (and would also find "attack") in the title, so the
transformed record has `is_alert = true`. -/
theorem gdelt_enrichment_cx :
    gdeltRecord1.metadata.is_alert = some true ∧
    gdeltRecord1.metadata.alert_keyword = some "military" := by
  constructor <;> decide

/-- Claim C1 (amended): for the two-article GDELT scenario, the first
record's topics include both "CYBER" and "DEFENSE" (the full list is
`["CYBER", "CONFLICT", "DEFENSE"]`), its `metadata.is_alert` is *true*
with alert keyword "military" (not false as originally claimed), and the
second record's topics list is empty. -/
theorem gdelt_enrichment_amended :
    "CYBER" ∈ gdeltRecord1.topics ∧
    "DEFENSE" ∈ gdeltRecord1.topics ∧
    gdeltRecord1.topics = ["CYBER", "CONFLICT", "DEFENSE"] ∧
    gdeltRecord1.metadata.is_alert = some true ∧
    gdeltRecord2.topics = [] := by
  refine ⟨?_, ?_, ?_, ?_, ?_⟩ <;> decide

/-- Claim C5: `parseDate` is total — for any string matching no pattern and
rejected by the native parse it returns the current time (its only other
outcomes being native-parse results), and on the compact GDELT form
`20240115T120000Z` it returns the ISO-normalized equivalent of
`2024-01-15T12:00:00Z`, given a host `Date` conforming to ECMA-262 on that
(Date-Time-String-Format) input. -/
theorem parseDate_total_spec :
    (∀ native now s, native s = none → rfc2822Match s.data = false →
      isoLikeMatch s.data = false → gdeltMatch s.data = none →
      parseDate native now s = now) ∧
    (∀ native now, native "20240115T120000Z" = none →
      native "2024-01-15T12:00:00Z" = some "2024-01-15T12:00:00.000Z" →
      parseDate native now "20240115T120000Z" = "2024-01-15T12:00:00.000Z") := by
  constructor
  · intro native now s hn hr hi hg
    by_cases hs : s = ""
    · simp [parseDate, hs]
    · simp [parseDate, hs, hn, hr, hi, hg]
  · intro native now h1 h2
    have hne : ("20240115T120000Z" : String) ≠ "" := by decide
    have hr : rfc2822Match "20240115T120000Z".data = false := by decide
    have hi : isoLikeMatch "20240115T120000Z".data = false := by decide
    have hg : gdeltMatch "20240115T120000Z".data =
        some ("2024", "01", "15", "12", "00", "00") := by decide
    have hiso : gdeltToIso ("2024", "01", "15", "12", "00", "00") =
        "2024-01-15T12:00:00Z" := by decide
    simp [parseDate, hne, h1, hr, hi, hg, hiso, h2]

/-- Witness for C5: a concrete conforming host oracle. -/
theorem parseDate_total_spec_witness :
    parseDate demoNative "2024-06-01T00:00:00.000Z" "20240115T120000Z" =
      "2024-01-15T12:00:00.000Z" ∧
    parseDate demoNative "2024-06-01T00:00:00.000Z" "garbage" =
      "2024-06-01T00:00:00.000Z" :=
  ⟨parseDate_total_spec.2 demoNative "2024-06-01T00:00:00.000Z"
      (by decide) (by decide),
   parseDate_total_spec.1 demoNative "2024-06-01T00:00:00.000Z" "garbage"
      (by decide) (by decide) (by decide) (by decide)⟩

/-- Counterexample for claim C7: the claim asserts the bare-token family
matches only tokens that are uppercase in the input, but the second
pattern carries the `i` flag, so the all-lowercase token "apple" (before
"shares") is matched by that family and emitted uppercase. -/
theorem extractTickers_lowercase_cx :
    extractTickers "apple shares" = ["APPLE"] ∧
    tickerMatches1 "apple shares" = [] ∧
    tickerMatches2 "apple shares" = ["apple"] ∧
    tickerMatches3 "apple shares" = [] ∧
    "apple shares".data.all (fun c => !isUpperAlpha c) = true := by
  refine ⟨?_, ?_, ?_, ?_, ?_⟩ <;> decide

/-- Folding `setAdd` over a list preserves `Nodup` of the accumulator. -/
theorem foldl_setAdd_nodup (f : String → String) :
    ∀ (l : List String) (acc : List String), acc.Nodup →
      (l.foldl (fun acc m => setAdd acc (f m)) acc).Nodup := by
  intro l
  induction l with
  | nil => intro acc h; exact h
  | cons x xs ih =>
    intro acc h
    refine ih _ ?_
    show (setAdd acc (f x)).Nodup
    by_cases hx : f x ∈ acc
    · simpa [setAdd, hx] using h
    · simp [setAdd, hx, List.nodup_append, h]

/-- Claim C7 (amended): `extractTickers` is the first-seen de-duplication of
the uppercased captures of the three pattern families run in order
(`$SYMBOL`; a bare 2-5 letter token of *either case* — the pattern has the
`i` flag — followed by a business-context word; the crypto whitelist,
case-insensitive); the output never contains duplicates, and the concrete
run shows the three families and first-seen order. -/
theorem extractTickers_union :
    (∀ text, extractTickers text =
      dedupFirstSeen ((tickerMatches1 text ++ tickerMatches2 text ++
        tickerMatches3 text).map upperStr)) ∧
    (∀ text, (extractTickers text).Nodup) ∧
    extractTickers "Buy $AAPL and TSLA stock plus btc" =
      ["AAPL", "TSLA", "BTC"] := by
  refine ⟨?_, ?_, ?_⟩
  · intro text
    simp [extractTickers, dedupFirstSeen, List.foldl_append, List.foldl_map]
  · intro text
    unfold extractTickers
    exact foldl_setAdd_nodup upperStr _ _
      (foldl_setAdd_nodup upperStr _ _
        (foldl_setAdd_nodup upperStr _ _ List.nodup_nil))
  · decide

/-- Membership in a mapped list, phrased for the `contains` checks of
`dedupGo`. -/
theorem contains_map_eq (f : NewsItem → String) (kept : List NewsItem)
    (x : String) :
    ((kept.map f).contains x = true) ↔ ∃ y ∈ kept, f y = x := by
  constructor
  · intro h
    exact List.mem_map.mp (List.mem_of_elem_eq_true h)
  · intro h
    obtain ⟨y, hy, hf⟩ := h
    exact List.elem_eq_true_of_mem (List.mem_map.mpr ⟨y, hy, hf⟩)

/-- One-step equation for `dedupGo` on a cons cell. -/
theorem dedupGo_cons (item : NewsItem) (tl kept : List NewsItem)
    (ids hashes : List String) :
    dedupGo (item :: tl) kept ids hashes =
      if ids.contains item.id then dedupGo tl kept ids hashes
      else if hashes.contains (titleFingerprint item) then
        dedupGo tl kept ids hashes
      else dedupGo tl (kept ++ [item]) (ids ++ [item.id])
        (hashes ++ [titleFingerprint item]) := rfl

/-- One-step equation for `dedupSpecGo` on a cons cell. -/
theorem dedupSpecGo_cons (acc : List NewsItem) (item : NewsItem)
    (tl : List NewsItem) :
    dedupSpecGo acc (item :: tl) =
      if (∃ y ∈ acc, y.id = item.id) ∨
          (∃ y ∈ acc, titleFingerprint y = titleFingerprint item) then
        dedupSpecGo acc tl
      else dedupSpecGo (acc ++ [item]) tl := rfl

/-- The maintained-sets loop of the source (`dedupGo`) computes the
specification's recompute-from-kept-records loop, whenever the sets are
exactly the ids / fingerprints of the kept records. -/
theorem dedupGo_eq_specGo :
    ∀ (rest kept : List NewsItem),
      dedupGo rest kept (kept.map (·.id)) (kept.map titleFingerprint) =
        dedupSpecGo kept rest := by
  intro rest
  induction rest with
  | nil => intro kept; rfl
  | cons item tl ih =>
    intro kept
    rw [dedupGo_cons, dedupSpecGo_cons]
    by_cases h1 : ∃ y ∈ kept, y.id = item.id
    · have hc : (kept.map (·.id)).contains item.id = true :=
        (contains_map_eq _ _ _).mpr h1
      rw [if_pos hc, if_pos (Or.inl h1)]
      exact ih kept
    · have hc1 : (kept.map (·.id)).contains item.id = false := by
        rw [Bool.eq_false_iff]
        intro hcc
        exact h1 ((contains_map_eq _ _ _).mp hcc)
      rw [hc1]
      by_cases h2 : ∃ y ∈ kept, titleFingerprint y = titleFingerprint item
      · have hc2 : (kept.map titleFingerprint).contains (titleFingerprint item)
            = true := (contains_map_eq _ _ _).mpr h2
        rw [if_neg (by simp), if_pos hc2, if_pos (Or.inr h2)]
        exact ih kept
      · have hc2 : (kept.map titleFingerprint).contains (titleFingerprint item)
            = false := by
          rw [Bool.eq_false_iff]
          intro hcc
          exact h2 ((contains_map_eq _ _ _).mp hcc)
        rw [if_neg (by simp), hc2, if_neg (by simp),
          if_neg (by rintro (h | h) <;> [exact h1 h; exact h2 h])]
        have e1 : kept.map (·.id) ++ [item.id] = (kept ++ [item]).map (·.id) := by
          simp
        have e2 : kept.map titleFingerprint ++ [titleFingerprint item] =
            (kept ++ [item]).map titleFingerprint := by simp
        rw [e1, e2]
        exact ih (kept ++ [item])

/-- Claim C3: deduplication keeps a record exactly when no previously kept
record had its id or its title fingerprint (title lower-cased,
non-alphanumerics stripped, hashed) — first-seen wins; in particular two
records with the same id leave one survivor, and two records with distinct
ids but identical normalized titles leave one survivor. -/
theorem deduplicateItems_spec :
    (∀ items, deduplicateItems items = dedupSpec items) ∧
    (∀ a b : NewsItem, a.id = b.id → deduplicateItems [a, b] = [a]) ∧
    (∀ a b : NewsItem, a.id ≠ b.id →
      normalizedTitle a.title = normalizedTitle b.title →
      deduplicateItems [a, b] = [a]) := by
  refine ⟨?_, ?_, ?_⟩
  · intro items
    simpa [deduplicateItems, dedupSpec] using dedupGo_eq_specGo items []
  · intro a b hid
    simp [deduplicateItems, dedupGo, ← hid]
  · intro a b hid ht
    have hfp : titleFingerprint b = titleFingerprint a := by
      simp [titleFingerprint, ht]
    simp [deduplicateItems, dedupGo, hid, hfp, Ne.symm hid]

/-- Witness for C3 at concrete records: a same-id pair and a
distinct-id/same-fingerprint pair. -/
theorem deduplicateItems_spec_witness :
    deduplicateItems [sampleItem "x1" "Breaking News!" "p",
      sampleItem "x1" "Different" "p"] =
      [sampleItem "x1" "Breaking News!" "p"] ∧
    deduplicateItems [sampleItem "y1" "Breaking News!" "p",
      sampleItem "y2" "breaking-news" "p"] =
      [sampleItem "y1" "Breaking News!" "p"] :=
  ⟨deduplicateItems_spec.2.1 _ _ rfl,
   deduplicateItems_spec.2.2 _ _ (by decide) (by decide)⟩

/-- Claim C10: with a non-empty allowed-categories (or allowed-regions)
list configured, the category (region) predicate is a no-op on any record
whose `metadata.category` (`metadata.region`) is absent — it rejects only
when the field is present and not in the allowed list — so such records
are filtered exactly as if that predicate were not configured. -/
theorem filterItems_absent_fields :
    (∀ parse nowMs cfg (item : NewsItem), item.metadata.category = none →
      itemPasses parse nowMs cfg item =
        itemPasses parse nowMs { cfg with categories := [] } item) ∧
    (∀ parse nowMs cfg (item : NewsItem), item.metadata.region = none →
      itemPasses parse nowMs cfg item =
        itemPasses parse nowMs { cfg with regions := [] } item) ∧
    (∀ parse nowMs cfg (items : List NewsItem),
      (∀ i ∈ items, i.metadata.category = none ∧ i.metadata.region = none) →
      filterItems parse nowMs cfg items =
        filterItems parse nowMs { cfg with categories := [], regions := [] }
          items) := by
  have p1 : ∀ parse nowMs cfg (item : NewsItem), item.metadata.category = none →
      itemPasses parse nowMs cfg item =
        itemPasses parse nowMs { cfg with categories := [] } item := by
    intro parse nowMs cfg item h
    simp [itemPasses, strTruthy, h]
  have p2 : ∀ parse nowMs cfg (item : NewsItem), item.metadata.region = none →
      itemPasses parse nowMs cfg item =
        itemPasses parse nowMs { cfg with regions := [] } item := by
    intro parse nowMs cfg item h
    simp [itemPasses, strTruthy, h]
  refine ⟨p1, p2, ?_⟩
  intro parse nowMs cfg items h
  unfold filterItems
  refine List.filter_congr ?_
  intro i hi
  calc itemPasses parse nowMs cfg i
      = itemPasses parse nowMs { cfg with categories := [] } i :=
        p1 parse nowMs cfg i (h i hi).1
    _ = itemPasses parse nowMs { cfg with categories := [], regions := [] } i :=
        p2 parse nowMs { cfg with categories := [] } i (h i hi).2

/-- Witness for C10: a record with no category/region passes the
category+region filters of a restrictive configuration exactly as with
those filters removed. -/
theorem filterItems_absent_fields_witness :
    itemPasses demoParse 0 demoFilterCfg demoItem1 =
      itemPasses demoParse 0 { demoFilterCfg with categories := [] } demoItem1 ∧
    itemPasses demoParse 0 demoFilterCfg demoItem1 = true :=
  ⟨filterItems_absent_fields.1 demoParse 0 demoFilterCfg demoItem1 rfl,
   by decide⟩

/-- Claim C8: `normalize` does not re-derive fields a connector already
populated — non-empty `topics` and `tickers`, a non-empty
`metadata.region`, and an already-present `metadata.is_alert` (true *or*
false) survive unchanged. -/
theorem normalizeItem_idempotent :
    (∀ now item ts, item.topics = some ts → ts ≠ [] →
      (normalizeItem now item).topics = ts) ∧
    (∀ now item ts, item.tickers = some ts → ts ≠ [] →
      (normalizeItem now item).tickers = ts) ∧
    (∀ now item md r, item.metadata = some md → md.region = some r → r ≠ "" →
      (normalizeItem now item).metadata.region = some r) ∧
    (∀ now item md b, item.metadata = some md → md.is_alert = some b →
      (normalizeItem now item).metadata.is_alert = some b) := by
  refine ⟨?_, ?_, ?_, ?_⟩
  · intro now item ts h1 h2
    cases ts with
    | nil => exact absurd rfl h2
    | cons a tl => simp [normalizeItem, h1]
  · intro now item ts h1 h2
    cases ts with
    | nil => exact absurd rfl h2
    | cons a tl => simp [normalizeItem, h1]
  · intro now item md r h1 h2 h3
    simp [normalizeItem, h1, h2, h3]
  · intro now item md b h1 h2
    simp [normalizeItem, h1, h2]

/-- Witness for C8: the prefilled record's enrichment fields survive
`normalizeItem` even though re-derivation would produce different values
(the title "war in ukraine" would yield region EUROPE and an alert). -/
theorem normalizeItem_idempotent_witness :
    (normalizeItem "2024-01-01T00:00:00Z" demoPrefilled).topics = ["MANUAL"] ∧
    (normalizeItem "2024-01-01T00:00:00Z" demoPrefilled).tickers = ["ZZZT"] ∧
    (normalizeItem "2024-01-01T00:00:00Z" demoPrefilled).metadata.region =
      some "APAC" ∧
    (normalizeItem "2024-01-01T00:00:00Z" demoPrefilled).metadata.is_alert =
      some false :=
  ⟨normalizeItem_idempotent.1 _ demoPrefilled _ rfl (by decide),
   normalizeItem_idempotent.2.1 _ demoPrefilled _ rfl (by decide),
   normalizeItem_idempotent.2.2.1 _ demoPrefilled _ _ rfl rfl (by decide),
   normalizeItem_idempotent.2.2.2 _ demoPrefilled _ _ rfl rfl⟩

/-- Claim C9: `runPipeline` is fail-soft.  A thrown storage `save` is
captured as a `stage := "store"` error and the returned result still
carries the full in-memory record set (identical to the record set of the
same run with a succeeding save); a thrown source-family fetch is captured
as a `stage := "fetch"` error naming the family, and the run's record set
is that of the same run with that family contributing zero records.  In
every case a complete `PipelineResult` is returned. -/
theorem runPipeline_failsoft :
    (∀ env opts msg, opts.storage = some (.error msg) →
      (runPipeline env opts).items =
        (runPipeline env { opts with storage := some (.ok ()) }).items ∧
      ({ stage := "store", source := none, message := msg,
         timestamp := env.nowIso } : StageError) ∈ (runPipeline env opts).errors) ∧
    (∀ env opts msg, opts.useGdelt = true → env.gdeltFetch = .error msg →
      ({ stage := "fetch", source := some "GDELT", message := msg,
         timestamp := env.nowIso } : StageError) ∈ (runPipeline env opts).errors ∧
      (runPipeline env opts).items =
        (runPipeline { env with gdeltFetch := .ok [] } opts).items) ∧
    (∀ env opts msg, opts.useRss = true → env.rssFetch = .error msg →
      ({ stage := "fetch", source := some "RSS", message := msg,
         timestamp := env.nowIso } : StageError) ∈ (runPipeline env opts).errors ∧
      (runPipeline env opts).items =
        (runPipeline { env with rssFetch := .ok [] } opts).items) ∧
    (∀ env opts msg, opts.useIntel = true → env.intelFetch = .error msg →
      ({ stage := "fetch", source := some "Intel", message := msg,
         timestamp := env.nowIso } : StageError) ∈ (runPipeline env opts).errors ∧
      (runPipeline env opts).items =
        (runPipeline { env with intelFetch := .ok [] } opts).items) := by
  refine ⟨?_, ?_, ?_, ?_⟩
  · intro env opts msg hst
    constructor
    · simp [runPipeline, hst]
    · simp [runPipeline, hst]
  · intro env opts msg hu hf
    constructor
    · rcases hs : opts.storage with _ | ⟨_ | _⟩ <;>
        simp [runPipeline, fetchFamily, hu, hf, hs]
    · simp [runPipeline, fetchFamily, hu, hf]
  · intro env opts msg hu hf
    constructor
    · rcases hs : opts.storage with _ | ⟨_ | _⟩ <;>
        simp [runPipeline, fetchFamily, hu, hf, hs]
    · simp [runPipeline, fetchFamily, hu, hf]
  · intro env opts msg hu hf
    constructor
    · rcases hs : opts.storage with _ | ⟨_ | _⟩ <;>
        simp [runPipeline, fetchFamily, hu, hf, hs]
    · simp [runPipeline, fetchFamily, hu, hf]

/-- Witness for C9: a concrete run whose GDELT fetch and storage save both
throw still returns, carrying both stage errors and the record set of the
save-succeeding run. -/
theorem runPipeline_failsoft_witness :
    ({ stage := "store", source := none, message := "disk full",
       timestamp := "2024-01-03T01:00:00Z" } : StageError) ∈
      (runPipeline demoEnv demoOpts).errors ∧
    ({ stage := "fetch", source := some "GDELT",
       message := "network unreachable",
       timestamp := "2024-01-03T01:00:00Z" } : StageError) ∈
      (runPipeline demoEnv demoOpts).errors ∧
    (runPipeline demoEnv demoOpts).items =
      (runPipeline demoEnv { demoOpts with storage := some (.ok ()) }).items :=
  ⟨(runPipeline_failsoft.1 demoEnv demoOpts "disk full" rfl).2,
   (runPipeline_failsoft.2.1 demoEnv demoOpts "network unreachable" rfl rfl).1,
   (runPipeline_failsoft.1 demoEnv demoOpts "disk full" rfl).1⟩

/-- Stable insertion produces a permutation of consing. -/
theorem sortInsert_perm (le : NewsItem → NewsItem → Bool) (x : NewsItem) :
    ∀ L, (sortInsert le x L).Perm (x :: L) := by
  intro L
  induction L with
  | nil => exact List.Perm.refl _
  | cons y ys ih =>
    by_cases h : le x y = true
    · simp [sortInsert, h]
    · simp only [sortInsert, h, if_false, Bool.false_eq_true]
      exact (ih.cons y).trans (List.Perm.swap x y ys)

/-- `sortItems` permutes its input. -/
theorem sortItems_perm (parse : String → Option Int) :
    ∀ l, (sortItems parse l).Perm l := by
  intro l
  induction l with
  | nil => exact List.Perm.refl _
  | cons x xs ih =>
    exact (sortInsert_perm (jsLeBy parse) x (sortItems parse xs)).trans (ih.cons x)

/-- Stability of one insertion: the records carrying a given parsed
timestamp appear in the same order as before the insertion.  (Two records
with the same parsed timestamp always compare `≤ 0`, so the inserted,
earlier-input record can never jump past an equal-key one.) -/
theorem filter_sortInsert (parse : String → Option Int) (t : Int)
    (x : NewsItem) :
    ∀ L, (sortInsert (jsLeBy parse) x L).filter
        (fun a => decide (parse a.published_at = some t)) =
      if parse x.published_at = some t then
        x :: L.filter (fun a => decide (parse a.published_at = some t))
      else L.filter (fun a => decide (parse a.published_at = some t)) := by
  intro L
  induction L with
  | nil =>
    by_cases h : parse x.published_at = some t <;> simp [sortInsert, h]
  | cons y ys ih =>
    by_cases hle : jsLeBy parse x y = true
    · by_cases hx : parse x.published_at = some t <;>
        simp [sortInsert, hle, List.filter_cons, hx]
    · have hxy : ¬(parse x.published_at = some t ∧
          parse y.published_at = some t) := by
        rintro ⟨hx, hy⟩
        apply hle
        unfold jsLeBy
        rw [hx, hy]
        simp
      by_cases hx : parse x.published_at = some t
      · have hy : ¬ parse y.published_at = some t := fun hy => hxy ⟨hx, hy⟩
        simp [sortInsert, hle, List.filter_cons, hx, hy, ih]
      · simp [sortInsert, hle, List.filter_cons, hx, ih]

/-- Stability of the whole sort: for each timestamp value, filtering the
sorted output to the records with that parsed timestamp gives exactly the
input's subsequence. -/
theorem filter_sortItems (parse : String → Option Int) (t : Int) :
    ∀ l, (sortItems parse l).filter
        (fun a => decide (parse a.published_at = some t)) =
      l.filter (fun a => decide (parse a.published_at = some t)) := by
  intro l
  induction l with
  | nil => rfl
  | cons x xs ih =>
    show (sortInsert (jsLeBy parse) x (sortItems parse xs)).filter _ = _
    rw [filter_sortInsert]
    by_cases hx : parse x.published_at = some t <;>
      simp [List.filter_cons, hx, ih]

/-- Inserting a record with a parsed date into a newest-first list of
records with parsed dates keeps it newest-first. -/
theorem pairwise_sortInsert (parse : String → Option Int) (x : NewsItem) :
    ∀ L, (parse x.published_at).isSome →
      (∀ a ∈ L, (parse a.published_at).isSome) →
      L.Pairwise (newestFirst parse) →
      (sortInsert (jsLeBy parse) x L).Pairwise (newestFirst parse) := by
  intro L
  induction L with
  | nil =>
    intro _ _ _
    simp [sortInsert, List.pairwise_singleton]
  | cons y ys ih =>
    intro hx hL hP
    rw [List.pairwise_cons] at hP
    obtain ⟨hyAll, hPys⟩ := hP
    by_cases hle : jsLeBy parse x y = true
    · simp only [sortInsert, hle, if_true]
      rw [List.pairwise_cons]
      refine ⟨?_, ?_⟩
      · intro z hz
        rcases List.mem_cons.mp hz with rfl | hz'
        · intro ta tb hta htb
          unfold jsLeBy at hle
          rw [hta, htb] at hle
          simp at hle
          omega
        · intro ta tb hta htb
          obtain ⟨ty, hty⟩ := Option.isSome_iff_exists.mp
            (hL y (List.mem_cons_self y ys))
          have h1 : ty ≤ ta := by
            unfold jsLeBy at hle
            rw [hta, hty] at hle
            simp at hle
            omega
          have h2 : tb ≤ ty := hyAll z hz' ty tb hty htb
          omega
      · rw [List.pairwise_cons]
        exact ⟨hyAll, hPys⟩
    · simp only [sortInsert, hle, if_false, Bool.false_eq_true]
      rw [List.pairwise_cons]
      refine ⟨?_, ?_⟩
      · intro z hz
        have hz' := (sortInsert_perm (jsLeBy parse) x ys).mem_iff.mp hz
        rcases List.mem_cons.mp hz' with rfl | hz''
        · intro ta tb hta htb
          unfold jsLeBy at hle
          rw [htb, hta] at hle
          simp at hle
          omega
        · exact hyAll z hz''
      · exact ih hx (fun a ha => hL a (List.mem_cons_of_mem y ha)) hPys

/-- When every record's date parses, the sorted output is newest-first. -/
theorem pairwise_sortItems (parse : String → Option Int) :
    ∀ l, (∀ a ∈ l, (parse a.published_at).isSome) →
      (sortItems parse l).Pairwise (newestFirst parse) := by
  intro l
  induction l with
  | nil => intro _; simp [sortItems]
  | cons x xs ih =>
    intro h
    show (sortInsert (jsLeBy parse) x (sortItems parse xs)).Pairwise _
    refine pairwise_sortInsert parse x _ (h x (List.mem_cons_self x xs)) ?_
      (ih fun a ha => h a (List.mem_cons_of_mem x ha))
    intro a ha
    exact h a (List.mem_cons_of_mem x ((sortItems_perm parse xs).mem_iff.mp ha))

/-- Claim C2 (amended): `sortItems` returns a permutation of its input that
is stable (for every timestamp, the records parsing to it keep their input
order) and, whenever every record's `published_at` parses, is ordered by
timestamp descending.  A record with an unparsable date is *not* treated
as epoch: its comparison with every record is `NaN`, which the sort treats
as `0`, so it keeps its input-relative position instead of sinking below
all valid dates (see the counterexample). -/
theorem sortItems_spec :
    ∀ parse (items : List NewsItem),
      (sortItems parse items).Perm items ∧
      (∀ t : Int, (sortItems parse items).filter
          (fun a => decide (parse a.published_at = some t)) =
        items.filter (fun a => decide (parse a.published_at = some t))) ∧
      ((∀ a ∈ items, (parse a.published_at).isSome) →
        (sortItems parse items).Pairwise (newestFirst parse)) :=
  fun parse items =>
    ⟨sortItems_perm parse items,
     fun t => filter_sortItems parse t items,
     fun h => pairwise_sortItems parse items h⟩

/-- Counterexample for claim C2: a record whose `published_at` fails to
parse does not sort after records with valid dates — the comparator is
`NaN` (treated as `0`), so `[unparsable, valid]` is returned unchanged,
with the unparsable record first. -/
theorem sortItems_unparsable_cx :
    demoParse demoItemBad.published_at = none ∧
    (demoParse demoItem1.published_at).isSome = true ∧
    sortItems demoParse [demoItemBad, demoItem1] = [demoItemBad, demoItem1] := by
  refine ⟨?_, ?_, ?_⟩ <;> decide

/-- Witness for C2 at the spec's example (dates 03, 01, 02): all dates
parse and the sorted output is pairwise newest-first. -/
theorem sortItems_spec_witness :
    (∀ a ∈ [demoItem3, demoItem1, demoItem2],
      (demoParse a.published_at).isSome) ∧
    (sortItems demoParse [demoItem3, demoItem1, demoItem2]).Pairwise
      (newestFirst demoParse) :=
  ⟨by decide,
   (sortItems_spec demoParse [demoItem3, demoItem1, demoItem2]).2.2 (by decide)⟩

/-- A single-character `lastIndexWhere` is `lastIndexOf`. -/
theorem lastIndexWhere_single (c : Char) (l : List Char) :
    lastIndexWhere (fun d => d = c) l = lastIndexOfChar l c := by
  simp only [lastIndexWhere, lastIndexOfChar, decide_eq_true_eq]

/-- The single backward scan for any sentence terminator computes the
maximum of the three per-character backward scans, for aligned fold states
whose running bests are bounded by the running index. -/
theorem foldl_lastIndex_max :
    ∀ (l : List Char) (i b1 b2 b3 : Int), b1 ≤ i → b2 ≤ i → b3 ≤ i →
      (l.foldl (fun (st : Int × Int) d =>
        (st.1 + 1, if d = '.' ∨ d = '?' ∨ d = '!' then st.1 else st.2))
        (i, max (max b1 b2) b3)).2 =
      max (max
        ((l.foldl (fun (st : Int × Int) d =>
          (st.1 + 1, if d = '.' then st.1 else st.2)) (i, b1)).2)
        ((l.foldl (fun (st : Int × Int) d =>
          (st.1 + 1, if d = '?' then st.1 else st.2)) (i, b2)).2))
        ((l.foldl (fun (st : Int × Int) d =>
          (st.1 + 1, if d = '!' then st.1 else st.2)) (i, b3)).2) := by
  intro l
  induction l with
  | nil => intro i b1 b2 b3 _ _ _; rfl
  | cons d l ih =>
    intro i b1 b2 b3 h1 h2 h3
    simp only [List.foldl_cons]
    by_cases hd1 : d = '.'
    · subst hd1
      have e : max (max (i : Int) b2) b3 = i := by
        rw [max_eq_left h2, max_eq_left h3]
      simp only [if_pos (Or.inl rfl), if_pos rfl,
        if_neg (by decide : ¬('.' : Char) = '?'),
        if_neg (by decide : ¬('.' : Char) = '!')]
      have := ih (i + 1) i b2 b3 (by omega) (by omega) (by omega)
      rw [e] at this
      exact this
    · by_cases hd2 : d = '?'
      · subst hd2
        have e : max (max b1 (i : Int)) b3 = i := by
          rw [max_eq_right h1, max_eq_left h3]
        simp only [if_pos (Or.inr (Or.inl rfl)), if_pos rfl,
          if_neg (by decide : ¬('?' : Char) = '.'),
          if_neg (by decide : ¬('?' : Char) = '!')]
        have := ih (i + 1) b1 i b3 (by omega) (by omega) (by omega)
        rw [e] at this
        exact this
      · by_cases hd3 : d = '!'
        · subst hd3
          have e : max (max b1 b2) (i : Int) = i := by
            rw [max_eq_right (le_trans (max_le h1 h2) (le_refl i))]
          simp only [if_pos (Or.inr (Or.inr rfl)), if_pos rfl,
            if_neg (by decide : ¬('!' : Char) = '.'),
            if_neg (by decide : ¬('!' : Char) = '?')]
          have := ih (i + 1) b1 b2 i (by omega) (by omega) (by omega)
          rw [e] at this
          exact this
        · simp only [if_neg (by tauto : ¬(d = '.' ∨ d = '?' ∨ d = '!')),
            if_neg hd1, if_neg hd2, if_neg hd3]
          exact ih (i + 1) b1 b2 b3 (by omega) (by omega) (by omega)

/-- "Search backward for the last sentence terminator" equals the maximum
of the three `lastIndexOf` calls the source makes. -/
theorem lastIndexWhere_terminator (l : List Char) :
    lastIndexWhere (fun c => c = '.' ∨ c = '?' ∨ c = '!') l =
      max (max (lastIndexOfChar l '.') (lastIndexOfChar l '?'))
        (lastIndexOfChar l '!') := by
  have h := foldl_lastIndex_max l 0 (-1) (-1) (-1)
    (by norm_num) (by norm_num) (by norm_num)
  simp only [lastIndexWhere, lastIndexOfChar, decide_eq_true_eq]
  simpa using h

set_option maxRecDepth 4000 in
/-- Claim C6: `extractSummary` returns the cleaned text unchanged when it
fits in `maxLength`; otherwise it truncates at `maxLength` and cuts at the
last sentence terminator inclusive when that position exceeds
`maxLength * 0.5`, else cuts at the last space with an ellipsis when that
position exceeds `maxLength * 0.7`, else hard-truncates with an ellipsis —
exactly the specification-side `summarizeSpec`; and the spec's concrete
example holds. -/
theorem extractSummary_spec :
    (∀ content maxLength, extractSummary content maxLength =
      summarizeSpec content maxLength) ∧
    extractSummary
        "First sentence. Second sentence. Third sentence is very long..." 50 =
      "First sentence. Second sentence." := by
  constructor
  · intro content m
    unfold extractSummary summarizeSpec
    by_cases hc : content = ""
    · simp [hc]
    · simp only [hc, if_false]
      rw [lastIndexWhere_terminator, lastIndexWhere_single]
  · decide
